import Mathlib

/-!
Verification of the cache-and-stitch query engine (provider hub).

The definitions below are shallow embeddings of the corresponding Rust
functions, chiefly from `src/providers/yahoo_finance.rs`,
`src/providers/pyprovider.rs` and `src/tcp/server.rs`.  Machine integers
(`i64` epoch seconds) are modelled as `Int`; fallible Rust functions
returning `Result<_, String>` are modelled with `Except String _`.
-/

namespace Provider

/-! ### Interval arithmetic (`yahoo_finance.rs`, `/* interval math */` section)

Rust: `struct I(i64, i64);` — a half-open interval `[lo, hi)` in epoch
seconds, with the derived lexicographic `Ord`. -/
structure Iv where
  lo : Int
  hi : Int
deriving DecidableEq, Repr

/-- The derived lexicographic order of Rust `#[derive(PartialOrd, Ord)] struct I(i64, i64)`. -/
def ivLe (a b : Iv) : Prop :=
  a.lo < b.lo ∨ (a.lo = b.lo ∧ a.hi ≤ b.hi)

instance : DecidableRel ivLe := fun a b => by
  unfold ivLe; infer_instance

instance : IsTotal Iv ivLe :=
  ⟨by intro a b; unfold ivLe; omega⟩

instance : IsTrans Iv ivLe :=
  ⟨by intro a b c; unfold ivLe; omega⟩

instance : IsAntisymm Iv ivLe :=
  ⟨by
    rintro ⟨al, ah⟩ ⟨bl, bh⟩ h1 h2
    simp only [ivLe] at h1 h2
    simp only [Iv.mk.injEq]
    omega⟩

/-- Inner loop of Rust `fn merge`: the Rust code folds over the sorted list,
mutating the last pushed interval; here the interval under construction is the
accumulator `c`.  `if s <= last.1 { last.1 = last.1.max(e); } else { out.push(I(s, e)); }` -/
def mergeRun (c : Iv) : List Iv → List Iv
  | [] => [c]
  | x :: xs =>
    if x.lo ≤ c.hi then mergeRun ⟨c.lo, max c.hi x.hi⟩ xs
    else c :: mergeRun x xs

/-- Rust `fn merge(mut xs: Vec<I>) -> Vec<I>`: `xs.sort_unstable();` then the
fold above; an empty input yields the empty output (the Rust loop never pushes). -/
def merge (xs : List Iv) : List Iv :=
  match List.insertionSort ivLe xs with
  | [] => []
  | x :: rest => mergeRun x rest

/-- Loop body of Rust `fn missing(want: I, have: &[I]) -> Vec<I>`, recursing over
the merged coverage list with the loop variables `cur` (cursor) and the output
accumulated through the recursion.  The `if w1 ≤ cur2` branch is the Rust
`if cur >= want.1 { break; }` (after a break, the trailing
`if cur < want.1` push is dead); the `[]` case is that trailing push. -/
def missingGo (w0 w1 : Int) (cur : Int) : List Iv → List Iv
  | [] => if cur < w1 then [⟨cur, w1⟩] else []
  | h :: rest =>
    if h.hi ≤ w0 ∨ w1 ≤ h.lo then missingGo w0 w1 cur rest
    else
      let s := max h.lo w0
      let e := min h.hi w1
      let pre := if cur < s then [(⟨cur, s⟩ : Iv)] else []
      let cur2 := max cur e
      if w1 ≤ cur2 then pre else pre ++ missingGo w0 w1 cur2 rest

/-- Rust `fn missing(want: I, have: &[I]) -> Vec<I>`: gaps of `want` not
covered by `merge have`. -/
def missing (want : Iv) (hs : List Iv) : List Iv :=
  missingGo want.lo want.hi want.lo (merge hs)

/-- Rust `fn clamp_overlap`: the overlap of `[a0,a1)` and `[b0,b1)` when non-empty. -/
def clamp_overlap (a0 a1 b0 b1 : Int) : Option (Int × Int) :=
  let start := max a0 b0
  let stop := min a1 b1
  if start < stop then some (start, stop) else none

/-! ### Row-frame model (the polars `DataFrame` operations used by
`concat_and_trim` and `align_columns` in `yahoo_finance.rs`)

A frame is a list of column names plus row-major cells.  Only the value shapes
that can appear in `Entity.data` matter here: null, integers (timestamps,
volumes) and strings. -/
inductive Val where
  | null
  | int (n : Int)
  | str (s : String)
deriving DecidableEq, Repr

abbrev Row := List Val

structure Frame where
  cols : List String
  rows : List Row
deriving DecidableEq, Repr

/-- Column lookup by name (polars `df.column(name)` position). -/
def colIdx (cols : List String) (n : String) : Option Nat :=
  cols.findIdx? (· == n)

/-- polars `DataFrame::vstack_mut`: vertical concatenation; fails unless the
schemas (column names, in order) coincide — the code comment says
"This requires compatible schemas. If schemas might differ, align columns first." -/
def vstack (a b : Frame) : Except String Frame :=
  if a.cols = b.cols then .ok ⟨a.cols, a.rows ++ b.rows⟩
  else .error "concat/vstack error: column names do not match"

/-- The cell of row `r` in column `i`, when it is an integer (the `timestamp`
values of the yahoo frames are `i64` epoch seconds). -/
def rowTsAt (i : Nat) (r : Row) : Option Int :=
  match r[i]? with
  | some (.int n) => some n
  | _ => none

/-- Ordering used by the sort on the `timestamp` column (nulls first, the
polars default). -/
def tsLe (a b : Option Int) : Bool :=
  match a, b with
  | none, _ => true
  | some _, none => false
  | some x, some y => x ≤ y

/-- Sorting the rows by column `i` (polars `sort(["timestamp"], ...)`). -/
def insertRow (i : Nat) (r : Row) : List Row → List Row
  | [] => [r]
  | x :: xs =>
    if tsLe (rowTsAt i r) (rowTsAt i x) then r :: x :: xs
    else x :: insertRow i r xs

def sortRows (i : Nat) : List Row → List Row
  | [] => []
  | r :: rs => insertRow i r (sortRows i rs)

/-- polars `unique(None, UniqueKeepStrategy::First)`: with subset `None` the
duplicate test compares ENTIRE rows; the first occurrence is kept. -/
def uniqueFirstGo (seen : List Row) : List Row → List Row
  | [] => []
  | r :: rs =>
    if r ∈ seen then uniqueFirstGo seen rs
    else r :: uniqueFirstGo (r :: seen) rs

def uniqueFirst (l : List Row) : List Row := uniqueFirstGo [] l

/-- The trailing filter `col("timestamp").gt_eq(lit(want_from)).and(lt(lit(want_to)))`. -/
def inRange (i : Nat) (f t : Int) (r : Row) : Bool :=
  match rowTsAt i r with
  | some ts => decide (f ≤ ts ∧ ts < t)
  | none => false

/-- Rust `fn concat_and_trim(frames, want_from, want_to)`: manual vertical
concat via `vstack_mut`, then sort by `timestamp`, full-row `unique` keeping
first, then clamp to `[want_from, want_to)`. -/
def concat_and_trim (frames : List Frame) (want_from want_to : Int) :
    Except String Frame :=
  match frames with
  | [] => .error "no frames to stitch"
  | df0 :: rest => do
    let df ← rest.foldlM vstack df0
    match colIdx df.cols "timestamp" with
    | none => .error "trim/sort unique collect: column not found: timestamp"
    | some i =>
      .ok ⟨df.cols, ((uniqueFirst (sortRows i df.rows)).filter (inRange i want_from want_to))⟩

/-- Insertion into an ordered duplicate-free list of column names (one step of
the `BTreeSet<String>` of `align_columns`). -/
def insertSortedStr (s : String) : List String → List String
  | [] => [s]
  | x :: xs =>
    if s < x then s :: x :: xs
    else if s = x then x :: xs
    else x :: insertSortedStr s xs

/-- The `BTreeSet` of all column names, iterated in ascending order. -/
def btreeSet (l : List String) : List String :=
  l.foldl (fun acc s => insertSortedStr s acc) []

/-- One aligned cell: the original value when the source frame has the column,
`null` otherwise (Rust: `Series::new_null` then `select(&all)`). -/
def alignCell (df : Frame) (r : Row) (n : String) : Val :=
  match colIdx df.cols n with
  | some i => (r[i]?).getD .null
  | none => .null

/-- Rust `fn align_columns(dfs)`: every frame takes the union schema (in
`BTreeSet` order), missing columns filled with nulls.  (The `with_column` /
`select` calls cannot fail on row-shaped frames, so the model is total.) -/
def align_columns (dfs : List Frame) : List Frame :=
  let all := btreeSet (List.flatten (dfs.map (·.cols)))
  dfs.map (fun df => ⟨all, df.rows.map (fun r => all.map (alignCell df r))⟩)

/-- The intervals the stitcher keeps from the cached candidate slices:
`clamp_overlap` of each candidate against the request, skipping non-overlaps
(`stitch`, step 2). -/
def clampedIvs (cs : List (Int × Int)) (F T : Int) : List Iv :=
  cs.filterMap (fun c => (clamp_overlap c.1 c.2 F T).map (fun p => Iv.mk p.1 p.2))

/-! ### Entity, request and response model (`models.rs`, `query.rs`,
`tcp/response.rs`)

Timestamps (`ts_ms`, `fetched_at`, ...) are carried as opaque strings/values
supplied by the caller, since they come from the wall clock. -/
structure Entity where
  id : Option String
  source : String
  tags : String
  data : String
  etag : String
  fetched_at : String
  refresh_after : String
  state : String
  last_error : String
  updated_at : String
deriving DecidableEq, Repr

/-- `query.rs` `enum EntityFilter` (`DateRange { start, end }` is rendered with
`start`/`stop` because `end` is reserved in Lean). -/
inductive EntityFilter where
  | ById (s : String)
  | BySource (s : String)
  | ByState (s : String)
  | ByTags (ts : List String)
  | Ticker (t : String)
  | DateRange (start stop : String)
  | ByUpdatedAtRange (start stop : String)
  | ByUrl (u : String)
deriving DecidableEq, Repr

/-- `query.rs` `enum EntityInProvider`. -/
inductive EntityInProvider where
  | GetEntity (id : String)
  | SearchEntities (query : List EntityFilter) (limit : Option Nat)
  | GetReport (url : String)
  | GetEntities (ids : List String)
  | GetAllEntities (limit offset : Option Nat)
deriving DecidableEq, Repr

/-- `query.rs` `enum QueryEnvelopePayload`. -/
inductive QueryEnvelopePayload where
  | ProviderRequest (provider : String) (request : EntityInProvider)
  | ProviderList
deriving DecidableEq, Repr

/-- `tcp/response.rs` `ResponseKind`. -/
inductive ResponseKind where
  | ProviderList
  | ProviderRequest
  | InvalidJson
  | Unauthorized
deriving DecidableEq, Repr

structure ResponseError where
  code : Option String
  message : String
deriving DecidableEq, Repr

/-- The two shapes `serde_json::to_value` receives for `result` in
`handle_connection`: a provider-name list or an entity list. -/
inductive ResultVal where
  | names (ns : List String)
  | entities (es : List Entity)
deriving DecidableEq, Repr

/-- `tcp/response.rs` `ResponseEnvelope` (without the wall-clock `ts_ms`). -/
structure ResponseEnvelope where
  ok : Bool
  request_id : Option String
  kind : ResponseKind
  provider : Option String
  request_kind : Option String
  result : Option ResultVal
  error : Option ResponseError
deriving DecidableEq, Repr

/-! ### Envelope processing (`tcp/server.rs handle_connection`) -/
/-- The `request_kind` string computed in the `ProviderRequest` arm. -/
def requestKindStr : EntityInProvider → String
  | .GetEntity _ => "GetEntity"
  | .SearchEntities _ _ => "SearchEntities"
  | .GetEntities _ => "GetEntities"
  | .GetAllEntities _ _ => "GetAllEntities"
  | .GetReport _ => "GetReport"

/-- An adapter as the dispatcher sees it: the `fetch_entities` entry point of
`ProviderTrait`; all upstream/DB effects live inside the function. -/
abbrev Adapter := EntityInProvider → Except String (List Entity)

/-- The registry (`Providers`): at most one adapter per name.  `lookup` models
`get_provider_mut`. -/
def lookupProvider (ps : List (String × Adapter)) (name : String) : Option Adapter :=
  (ps.find? (fun p => p.1 == name)).map (·.2)

/-- `Providers::provider_list`: the sorted name list. -/
def provider_list (ps : List (String × Adapter)) : List String :=
  List.insertionSort (fun a b : String => a ≤ b) (ps.map (·.1))

/-- The dispatch of one parsed envelope (`handle_connection`, `match &env.query`):
produces exactly the one response envelope the server writes back. -/
def processParsed (ps : List (String × Adapter)) (request_id : String) :
    QueryEnvelopePayload → ResponseEnvelope
  | .ProviderList =>
    { ok := true, request_id := some request_id, kind := .ProviderList,
      provider := none, request_kind := none,
      result := some (.names (provider_list ps)), error := none }
  | .ProviderRequest provider request =>
    match lookupProvider ps provider with
    | some p =>
      match p request with
      | .ok entities =>
        { ok := true, request_id := some request_id, kind := .ProviderRequest,
          provider := some provider, request_kind := some (requestKindStr request),
          result := some (.entities entities), error := none }
      | .error e =>
        { ok := false, request_id := some request_id, kind := .ProviderRequest,
          provider := some provider, request_kind := some (requestKindStr request),
          result := none,
          error := some ⟨some "provider_request_failed", e⟩ }
    | none =>
      { ok := false, request_id := some request_id, kind := .ProviderRequest,
        provider := some provider, request_kind := some (requestKindStr request),
        result := none,
        error := some ⟨some "provider_not_found", "unknown provider '" ++ provider ++ "'"⟩ }

/-- A top-level JSON field as the auth gate sees it: a string or something else. -/
inductive JVal where
  | str (s : String)
  | other
deriving DecidableEq, Repr

def JVal.asStr : JVal → Option String
  | .str s => some s
  | .other => none

/-- `raw_val.get("token").or_else(|| raw_val.get("access_token")).and_then(|v| v.as_str())`. -/
def extractToken (token access_token : Option JVal) : Option String :=
  (token.or access_token).bind JVal.asStr

/-- The auth gate plus dispatch for one well-formed envelope
(`handle_connection`, steps 2-3).  `validate` is
`AuthService::validate_access_token` returning the user identity (an opaque
string here) or an error. -/
def handleEnvelope (authEnabled : Bool) (validate : String → Except String String)
    (ps : List (String × Adapter)) (token access_token : Option JVal)
    (request_id : String) (query : QueryEnvelopePayload) : ResponseEnvelope :=
  if authEnabled then
    match extractToken token access_token with
    | some tok =>
      match validate tok with
      | .ok _user => processParsed ps request_id query
      | .error e =>
        { ok := false, request_id := some request_id, kind := .Unauthorized,
          provider := none, request_kind := none, result := none,
          error := some ⟨some "unauthorized", e⟩ }
    | none =>
      { ok := false, request_id := some request_id, kind := .Unauthorized,
        provider := none, request_kind := none, result := none,
        error := some ⟨some "missing_token", "auth is enabled but no token was provided"⟩ }
  else processParsed ps request_id query

/-! ### Etag (`make_etag`): `DefaultHasher` is SipHash-1-3 with zero keys; Rust
`Hash for str` feeds the UTF-8 bytes followed by a `0xff` byte.  64-bit words
are `Nat` reduced mod `2^64`. -/
def wadd (a b : Nat) : Nat := (a + b) % 18446744073709551616

def rotl64 (x r : Nat) : Nat :=
  ((x <<< r) ||| (x >>> (64 - r))) % 18446744073709551616

structure SipState where
  v0 : Nat
  v1 : Nat
  v2 : Nat
  v3 : Nat
deriving DecidableEq, Repr

def sipround (s : SipState) : SipState :=
  let v0 := wadd s.v0 s.v1
  let v1 := rotl64 s.v1 13
  let v1 := v1 ^^^ v0
  let v0 := rotl64 v0 32
  let v2 := wadd s.v2 s.v3
  let v3 := rotl64 s.v3 16
  let v3 := v3 ^^^ v2
  let v0 := wadd v0 v3
  let v3 := rotl64 v3 21
  let v3 := v3 ^^^ v0
  let v2 := wadd v2 v1
  let v1 := rotl64 v1 17
  let v1 := v1 ^^^ v2
  let v2 := rotl64 v2 32
  ⟨v0, v1, v2, v3⟩

/-- Little-endian word from up to 8 bytes. -/
def le64 (bs : List Nat) : Nat :=
  bs.foldr (fun b acc => acc * 256 + b) 0

/-- Split a byte stream into full 8-byte chunks plus the remainder. -/
def takeChunks : List Nat → List (List Nat) × List Nat
  | b0 :: b1 :: b2 :: b3 :: b4 :: b5 :: b6 :: b7 :: rest =>
    let (cs, r) := takeChunks rest
    ([b0, b1, b2, b3, b4, b5, b6, b7] :: cs, r)
  | rest => ([], rest)

/-- SipHash-1-3 with `k0 = k1 = 0` over a byte stream (Rust
`DefaultHasher::finish` after `write`). -/
def siphash13 (msg : List Nat) : Nat :=
  let s0 : SipState :=
    ⟨0x736f6d6570736575, 0x646f72616e646f6d, 0x6c7967656e657261, 0x7465646279746573⟩
  let cr := takeChunks msg
  let s1 := cr.1.foldl
    (fun s c =>
      let m := le64 c
      let s := { s with v3 := s.v3 ^^^ m }
      let s := sipround s
      { s with v0 := s.v0 ^^^ m }) s0
  let b := ((msg.length % 256) * 72057594037927936 + le64 cr.2) % 18446744073709551616
  let s2 := { s1 with v3 := s1.v3 ^^^ b }
  let s2 := sipround s2
  let s2 := { s2 with v0 := s2.v0 ^^^ b }
  let s3 := { s2 with v2 := s2.v2 ^^^ 0xff }
  let s3 := sipround (sipround (sipround s3))
  s3.v0 ^^^ s3.v1 ^^^ s3.v2 ^^^ s3.v3

/-- UTF-8 encoding of one scalar value (Rust `str::as_bytes`). -/
def charUtf8 (c : Char) : List Nat :=
  let n := c.toNat
  if n < 0x80 then [n]
  else if n < 0x800 then [0xC0 + n / 64, 0x80 + n % 64]
  else if n < 0x10000 then [0xE0 + n / 4096, 0x80 + (n / 64) % 64, 0x80 + n % 64]
  else [0xF0 + n / 262144, 0x80 + (n / 4096) % 64, 0x80 + (n / 64) % 64, 0x80 + n % 64]

def strBytes (s : String) : List Nat :=
  (s.data.map charUtf8).flatten

def hexDigit (n : Nat) : Char :=
  if n < 10 then Char.ofNat (48 + n) else Char.ofNat (87 + n)

/-- `format!("{:016x}", _)`: exactly 16 lowercase hex digits. -/
def toHexAux : Nat → Nat → List Char
  | 0, _ => []
  | k + 1, m => toHexAux k (m / 16) ++ [hexDigit (m % 16)]

/-- Rust `fn make_etag(s: &str) -> String`: `DefaultHasher` over `s` (str
hashing appends the `0xff` terminator byte), rendered as 16 hex digits. -/
def make_etag (s : String) : String :=
  ⟨toHexAux 16 (siphash13 (strBytes s ++ [0xff]))⟩

/-! ### Persisting (`persist_yahoo_df_as_entity`, `df_to_json_records`,
`compute_id`) -/
/-- `YahooFinanceProvider::compute_id`. -/
def compute_id (source ticker fromS toS : String) : String :=
  source ++ ":" ++ ticker ++ ":" ++ fromS ++ ".." ++ toS

/-- One cell of `df_to_json_records` (its `anyvalue_to_json`). -/
def valJson : Val → String
  | .null => "null"
  | .int n => toString n
  | .str s => "\"" ++ s ++ "\""

/-- One record object, keys in column order. -/
def rowJson (cols : List String) (r : Row) : String :=
  "\x7b" ++
    String.intercalate ","
      ((cols.zip r).map (fun p => "\"" ++ p.1 ++ "\":" ++ valJson p.2)) ++
    "\x7d"

/-- `df_to_json_records` followed by `serde_json::to_string`: the serialized
row-array payload that becomes `Entity.data`. -/
def df_to_json_records (df : Frame) : String :=
  "[" ++ String.intercalate "," (df.rows.map (rowJson df.cols)) ++ "]"

/-- Rust `fn persist_yahoo_df_as_entity` minus the DB write: the entity value
built and upserted.  `nowStr`/`refreshStr` stand for the wall-clock
`now_rfc3339_from(now)` and `now_rfc3339_from(now + 1 day)`. -/
def persist_yahoo_df_as_entity (source_name ticker from_rfc3339 to_rfc3339 : String)
    (df : Frame) (nowStr refreshStr : String) : Entity :=
  let data_str := df_to_json_records df
  let tags_str :=
    "[\"ticker=" ++ ticker ++ "\",\"from=" ++ from_rfc3339 ++
      "\",\"to=" ++ to_rfc3339 ++ "\"]"
  { id := some (compute_id source_name ticker from_rfc3339 to_rfc3339),
    source := source_name,
    tags := tags_str,
    data := data_str,
    etag := make_etag data_str,
    fetched_at := nowStr,
    refresh_after := refreshStr,
    state := "ready",
    last_error := "",
    updated_at := nowStr }

/-! ### Yahoo provider adapter (`YahooFinanceProvider::fetch_entities`)

The DB (`get_one_entity_from_db`, assumed error-free) is the `store` oracle;
the upstream HTTP pull (`pull_data`, returning the quotes frame) is the
`upstream` oracle; the wall-clock default window of
`default_last_days_rfc3339(30)` is the `(fromS, toS)` parameter pair.  Each arm
returns its upstream-call log alongside the result so that claims about which
calls are issued are expressible. -/
/-- `GetEntity` arm (lines 169-178) with `ensure_entity_in_db` inlined:
result, upstream calls `(ticker, from, to)`, and upserted entities. -/
def yahoo_fetch_GetEntity (store : String → Option Entity)
    (upstream : String → String → String → Except String Frame)
    (fromS toS nowStr refreshStr : String) (id : String) :
    Except String (List Entity) × List (String × String × String) × List Entity :=
  match store id with
  | some e => (.ok [e], [], [])
  | none =>
    match store (compute_id "yahoo_finance" id fromS toS) with
    | some e => (.ok [e], [], [])
    | none =>
      match upstream id fromS toS with
      | .error e => (.error e, [(id, fromS, toS)], [])
      | .ok df =>
        let ent := persist_yahoo_df_as_entity "yahoo_finance" id fromS toS df nowStr refreshStr
        (.ok [ent], [(id, fromS, toS)], [ent])

/-- `GetEntities` arm (lines 180-193): DB-first per id, missing ids skipped,
never any upstream call; error when nothing was found. -/
def yahoo_fetch_GetEntities (store : String → Option Entity) (ids : List String) :
    Except String (List Entity) :=
  let out := ids.filterMap store
  if out.isEmpty then .error "No requested entities found in DB" else .ok out

/-- `YahooFinanceExternalData::from_filters`: last `Ticker` and last
`DateRange` win; missing range falls back to the default window. -/
structure YahooParams where
  ticker : String
  fromS : String
  toS : String
deriving DecidableEq, Repr

def from_filters (defFrom defTo : String) (filters : List EntityFilter) :
    Except String YahooParams :=
  let ticker := filters.foldl
    (fun acc f => match f with | .Ticker t => some t | _ => acc) none
  let range := filters.foldl
    (fun acc f => match f with | .DateRange s e => some (s, e) | _ => acc)
    (none : Option (String × String))
  match ticker with
  | none => .error "Missing ticker"
  | some t =>
    match range with
    | some r => .ok ⟨t, r.1, r.2⟩
    | none => .ok ⟨t, defFrom, defTo⟩

/-- `SearchEntities` arm (lines 197-217): with both a `Ticker` and a
`DateRange` filter present, `stitch` is invoked on the filters; otherwise the
whole window is ensured via `ensure_entity_in_db`.  The second component logs
the `stitch` invocations. -/
def yahoo_fetch_SearchEntities (stitchFn : List EntityFilter → Except String Entity)
    (ensureFn : String → String → String → Except String Entity)
    (defFrom defTo : String) (query : List EntityFilter) :
    Except String (List Entity) × List (List EntityFilter) :=
  let have_ticker := query.any (fun f => match f with | .Ticker _ => true | _ => false)
  let have_range := query.any (fun f => match f with | .DateRange _ _ => true | _ => false)
  if have_ticker && have_range then
    match stitchFn query with
    | .ok e => (.ok [e], [query])
    | .error er => (.error er, [query])
  else
    match from_filters defFrom defTo query with
    | .error er => (.error er, [])
    | .ok p =>
      match ensureFn p.ticker p.fromS p.toS with
      | .ok e => (.ok [e], [])
      | .error er => (.error er, [])

/-- The whole `fetch_entities` of `YahooFinanceProvider` as one adapter
function (`GetAllEntities` returns the store dump `allEntities`; everything
else is per-arm as above; `GetReport` falls into the unsupported arm). -/
def yahoo_fetch_entities (store : String → Option Entity)
    (upstream : String → String → String → Except String Frame)
    (stitchFn : List EntityFilter → Except String Entity)
    (ensureFn : String → String → String → Except String Entity)
    (allEntities : List Entity) (defFrom defTo nowStr refreshStr : String) : Adapter :=
  fun req =>
    match req with
    | .GetEntity id => (yahoo_fetch_GetEntity store upstream defFrom defTo nowStr refreshStr id).1
    | .GetEntities ids => yahoo_fetch_GetEntities store ids
    | .SearchEntities q _ => (yahoo_fetch_SearchEntities stitchFn ensureFn defFrom defTo q).1
    | .GetAllEntities _ _ => .ok allEntities
    | .GetReport _ => .error "Unsupported operation for YahooFinanceProvider"

/-! ### Python adapter (`PyProviderAdapter::fetch_entities`, `GetEntities` arm)

`py_fetch` (the hosted call) is the `upstream` oracle; it receives the ORIGINAL
request, i.e. the full id list.  The `HashMap` is an association list with
replace-on-insert and remove-on-take. -/
def insertReplace (m : List (String × Entity)) (k : String) (v : Entity) :
    List (String × Entity) :=
  m.filter (fun p => p.1 ≠ k) ++ [(k, v)]

def removeGet (m : List (String × Entity)) (k : String) :
    Option (Entity × List (String × Entity)) :=
  match m.find? (fun p => p.1 == k) with
  | some p => some (p.2, m.filter (fun q => q.1 ≠ k))
  | none => none

/-- One step of the `for id in missing` loop: take the entity for `id` out of
`by_id` (when present) and append it. -/
def pyMergeStep (acc : List Entity × List (String × Entity)) (i : String) :
    List Entity × List (String × Entity) :=
  match removeGet acc.2 i with
  | some er => (acc.1 ++ [er.1], er.2)
  | none => acc

/-- `PyProviderAdapter::fetch_entities`, `GetEntities` arm (lines 247-279):
the result, the log of hosted `fetch_entities` calls (each carrying the id
list of the request it was given), and the list of entities upserted into the
store (`if !fetched.is_empty() { self.db_upsert_many(&fetched)?; }` — the
emptiness guard only skips an empty write, so the entities written are exactly
`fetched`). -/
def py_fetch_GetEntities (store : String → Option Entity)
    (upstream : List String → Except String (List Entity)) (ids : List String) :
    Except String (List Entity) × List (List String) × List Entity :=
  let hits := ids.filterMap store
  let missing := ids.filter (fun i => (store i).isNone)
  if missing.isEmpty then (.ok hits, [], [])
  else
    match upstream ids with
    | .error e => (.error e, [ids], [])
    | .ok fetched =>
      let by_id := fetched.foldl
        (fun m e => match e.id with | some k => insertReplace m k e | none => m) []
      ((Except.ok (missing.foldl pyMergeStep (hits, by_id)).1), [ids], fetched)

/-! ### Concrete values used by witnesses and counterexamples -/
def entX : Entity :=
  ⟨some "e1", "yahoo_finance", "[]", "[]", "x", "n", "r", "ready", "", "n"⟩

def entA : Entity :=
  ⟨some "a", "py", "[]", "[]", "x", "n", "r", "ready", "", "n"⟩

def entB : Entity :=
  ⟨some "b", "py", "[]", "[]", "x", "n", "r", "ready", "", "n"⟩

def entC : Entity :=
  ⟨some "yahoo_finance:AAPL:F..U", "yahoo_finance", "[]", "[]", "x", "n", "r", "ready", "", "n"⟩

def storeB : String → Option Entity :=
  fun i => if i = "b" then some entB else none

def upstreamA : List String → Except String (List Entity) :=
  fun _ => .ok [entA]

def storeC : String → Option Entity :=
  fun i => if i = "yahoo_finance:AAPL:F..U" then some entC else none

def upstreamC : String → String → String → Except String Frame :=
  fun _ _ _ => .ok ⟨["timestamp"], []⟩

/-! ## Theorems -/

/-! ### Lemmas about `merge` -/
theorem mergeRun_head_lo (xs : List Iv) (c : Iv) :
    ∃ d tl, mergeRun c xs = d :: tl ∧ d.lo = c.lo := by
  induction xs generalizing c with
  | nil => exact ⟨c, [], rfl, rfl⟩
  | cons x xs ih =>
    by_cases hx : x.lo ≤ c.hi
    · obtain ⟨d, tl, hdtl, hlo⟩ := ih ⟨c.lo, max c.hi x.hi⟩
      exact ⟨d, tl, by simpa [mergeRun, hx] using hdtl, hlo⟩
    · exact ⟨c, mergeRun x xs, by simp [mergeRun, hx], rfl⟩

theorem mergeRun_proper (xs : List Iv) (c : Iv) (hc : c.lo < c.hi)
    (hxs : ∀ x ∈ xs, x.lo < x.hi) :
    ∀ g ∈ mergeRun c xs, g.lo < g.hi := by
  induction xs generalizing c with
  | nil => simpa [mergeRun] using hc
  | cons x xs ih =>
    by_cases hx : x.lo ≤ c.hi
    · intro g hg
      rw [mergeRun, if_pos hx] at hg
      refine ih ⟨c.lo, max c.hi x.hi⟩ ?_ (fun y hy => hxs y (List.mem_cons_of_mem _ hy)) g hg
      simp only
      omega
    · intro g hg
      rw [mergeRun, if_neg hx] at hg
      rcases List.mem_cons.mp hg with rfl | hg
      · exact hc
      · exact ih x (hxs x (List.mem_cons_self _ _)) (fun y hy => hxs y (List.mem_cons_of_mem _ hy)) g hg

theorem mergeRun_chain (xs : List Iv) (c : Iv)
    (hstart : ∀ y ∈ xs, c.lo ≤ y.lo)
    (hsorted : List.Pairwise (fun a b : Iv => a.lo ≤ b.lo) xs) :
    List.Chain' (fun a b : Iv => a.hi < b.lo) (mergeRun c xs) := by
  induction xs generalizing c with
  | nil => simp [mergeRun]
  | cons x xs ih =>
    rcases List.pairwise_cons.mp hsorted with ⟨hx_rest, htail⟩
    by_cases hx : x.lo ≤ c.hi
    · rw [mergeRun, if_pos hx]
      exact ih ⟨c.lo, max c.hi x.hi⟩
        (fun y hy => hstart y (List.mem_cons_of_mem _ hy)) htail
    · rw [mergeRun, if_neg hx]
      rw [List.chain'_cons']
      constructor
      · intro y hy
        obtain ⟨d, tl, hdtl, hlo⟩ := mergeRun_head_lo xs x
        rw [hdtl] at hy
        simp only [List.head?_cons, Option.mem_def, Option.some.injEq] at hy
        subst hy
        omega
      · exact ih x hx_rest htail

theorem mergeRun_subset_union (xs : List Iv) (c : Iv) (t : Int)
    (ht : ∃ g ∈ mergeRun c xs, g.lo ≤ t ∧ t < g.hi) :
    (c.lo ≤ t ∧ t < c.hi) ∨ ∃ x ∈ xs, x.lo ≤ t ∧ t < x.hi := by
  induction xs generalizing c with
  | nil =>
    obtain ⟨g, hg, hgt⟩ := ht
    simp only [mergeRun, List.mem_singleton] at hg
    subst hg
    exact Or.inl hgt
  | cons x xs ih =>
    by_cases hx : x.lo ≤ c.hi
    · rw [mergeRun, if_pos hx] at ht
      rcases ih ⟨c.lo, max c.hi x.hi⟩ ht with hin | ⟨y, hy, hyt⟩
      · simp only at hin
        by_cases hch : t < c.hi
        · exact Or.inl ⟨hin.1, hch⟩
        · exact Or.inr ⟨x, List.mem_cons_self _ _, by omega⟩
      · exact Or.inr ⟨y, List.mem_cons_of_mem _ hy, hyt⟩
    · rw [mergeRun, if_neg hx] at ht
      obtain ⟨g, hg, hgt⟩ := ht
      rcases List.mem_cons.mp hg with rfl | hg
      · exact Or.inl hgt
      · rcases ih x ⟨g, hg, hgt⟩ with hin | ⟨y, hy, hyt⟩
        · exact Or.inr ⟨x, List.mem_cons_self _ _, hin⟩
        · exact Or.inr ⟨y, List.mem_cons_of_mem _ hy, hyt⟩

theorem merge_proper (xs : List Iv) (hxs : ∀ x ∈ xs, x.lo < x.hi) :
    ∀ g ∈ merge xs, g.lo < g.hi := by
  unfold merge
  have hperm := List.perm_insertionSort ivLe xs
  have hall : ∀ x ∈ List.insertionSort ivLe xs, x.lo < x.hi :=
    fun x hx => hxs x (hperm.mem_iff.mp hx)
  cases hs : List.insertionSort ivLe xs with
  | nil => simp
  | cons a rest =>
    rw [hs] at hall
    exact mergeRun_proper rest a (hall a (List.mem_cons_self _ _))
      (fun y hy => hall y (List.mem_cons_of_mem _ hy))

theorem merge_chain (xs : List Iv) :
    List.Chain' (fun a b : Iv => a.hi < b.lo) (merge xs) := by
  unfold merge
  have hsorted := List.sorted_insertionSort ivLe xs
  cases hs : List.insertionSort ivLe xs with
  | nil => simp
  | cons a rest =>
    rw [hs] at hsorted
    rcases List.pairwise_cons.mp hsorted with ⟨ha_rest, htail⟩
    exact mergeRun_chain rest a
      (fun y hy => by have := ha_rest y hy; unfold ivLe at this; omega)
      (htail.imp (fun h => by unfold ivLe at h; omega))

theorem merge_subset_union (xs : List Iv) (t : Int)
    (ht : ∃ g ∈ merge xs, g.lo ≤ t ∧ t < g.hi) :
    ∃ x ∈ xs, x.lo ≤ t ∧ t < x.hi := by
  unfold merge at ht
  have hperm := List.perm_insertionSort ivLe xs
  cases hs : List.insertionSort ivLe xs with
  | nil => rw [hs] at ht; simp at ht
  | cons a rest =>
    rw [hs] at ht hperm
    rcases mergeRun_subset_union rest a t ht with hin | ⟨y, hy, hyt⟩
    · exact ⟨a, hperm.mem_iff.mp (List.mem_cons_self _ _), hin⟩
    · exact ⟨y, hperm.mem_iff.mp (List.mem_cons_of_mem _ hy), hyt⟩

theorem merge_perm_invariant (xs ys : List Iv) (hperm : xs.Perm ys) :
    merge xs = merge ys := by
  unfold merge
  have : List.insertionSort ivLe xs = List.insertionSort ivLe ys :=
    List.eq_of_perm_of_sorted
      (((List.perm_insertionSort ivLe xs).trans hperm).trans
        (List.perm_insertionSort ivLe ys).symm)
      (List.sorted_insertionSort ivLe xs)
      (List.sorted_insertionSort ivLe ys)
  rw [this]

/-- Separated proper intervals are pairwise separated. -/
theorem pairwise_of_chain_sep (L : List Iv) (hL : ∀ g ∈ L, g.lo < g.hi)
    (hc : List.Chain' (fun a b : Iv => a.hi < b.lo) L) :
    List.Pairwise (fun a b : Iv => a.hi < b.lo) L := by
  induction L with
  | nil => simp
  | cons a l ih =>
    rcases List.chain'_cons'.mp hc with ⟨hhead, htail⟩
    have hpl := ih (fun g hg => hL g (List.mem_cons_of_mem _ hg)) htail
    refine List.pairwise_cons.mpr ⟨?_, hpl⟩
    intro b hb
    cases l with
    | nil => simp at hb
    | cons c l' =>
      have hac : a.hi < c.lo := hhead c (by simp)
      rcases List.mem_cons.mp hb with rfl | hb'
      · exact hac
      · have hcb : c.hi < b.lo := (List.pairwise_cons.mp hpl).1 b hb'
        have hcp : c.lo < c.hi := hL c (List.mem_cons_of_mem _ (List.mem_cons_self _ _))
        omega

/-! ### Lemmas about `missing` -/
theorem missingGo_bounds {w0 w1 : Int} (L : List Iv) (cur : Int)
    (hcur : w0 ≤ cur) (hw : w0 < w1) :
    ∀ g ∈ missingGo w0 w1 cur L, cur ≤ g.lo ∧ g.lo < g.hi ∧ g.hi ≤ w1 := by
  induction L generalizing cur with
  | nil =>
    intro g hg
    simp only [missingGo] at hg
    split at hg
    · simp only [List.mem_singleton] at hg
      subst hg
      exact ⟨le_refl _, by assumption, le_refl _⟩
    · simp at hg
  | cons h rest ih =>
    intro g hg
    simp only [missingGo] at hg
    split at hg
    · exact ih cur hcur g hg
    · rename_i hns
      push_neg at hns
      have hpre : ∀ g' ∈ (if cur < max h.lo w0 then [(⟨cur, max h.lo w0⟩ : Iv)] else []),
          cur ≤ g'.lo ∧ g'.lo < g'.hi ∧ g'.hi ≤ w1 := by
        intro g' hg'
        split at hg'
        · simp only [List.mem_singleton] at hg'
          subst hg'
          dsimp only
          omega
        · simp at hg'
      split at hg
      · exact hpre g hg
      · rcases List.mem_append.mp hg with hg' | hg'
        · exact hpre g hg'
        · have := ih (max cur (min h.hi w1)) (by omega) g hg'
          exact ⟨by omega, this.2.1, this.2.2⟩

theorem missingGo_chain {w0 w1 : Int} (L : List Iv) (cur : Int)
    (hcur : w0 ≤ cur) (hw : w0 < w1) (hL : ∀ h ∈ L, h.lo < h.hi) :
    List.Chain' (fun a b : Iv => a.hi < b.lo) (missingGo w0 w1 cur L) := by
  induction L generalizing cur with
  | nil =>
    simp only [missingGo]
    split
    · exact List.chain'_singleton _
    · exact List.chain'_nil
  | cons h rest ih =>
    have hrest : ∀ x ∈ rest, x.lo < x.hi := fun x hx => hL x (List.mem_cons_of_mem _ hx)
    have hh : h.lo < h.hi := hL h (List.mem_cons_self _ _)
    simp only [missingGo]
    by_cases hskip : h.hi ≤ w0 ∨ w1 ≤ h.lo
    · rw [if_pos hskip]
      exact ih cur hcur hrest
    · rw [if_neg hskip]
      push_neg at hskip
      by_cases hbrk : w1 ≤ max cur (min h.hi w1)
      · rw [if_pos hbrk]
        by_cases hcs : cur < max h.lo w0
        · rw [if_pos hcs]; exact List.chain'_singleton _
        · rw [if_neg hcs]; exact List.chain'_nil
      · rw [if_neg hbrk]
        have hrec := ih (max cur (min h.hi w1)) (by omega) hrest
        by_cases hcs : cur < max h.lo w0
        · rw [if_pos hcs, List.singleton_append, List.chain'_cons']
          refine ⟨?_, hrec⟩
          intro y hy
          have hymem : y ∈ missingGo w0 w1 (max cur (min h.hi w1)) rest :=
            List.mem_of_mem_head? hy
          have hb := missingGo_bounds rest (max cur (min h.hi w1)) (by omega) hw y hymem
          dsimp only
          omega
        · rw [if_neg hcs, List.nil_append]; exact hrec

theorem missingGo_cover {w0 w1 : Int} (L : List Iv) (cur : Int) (t : Int)
    (hct : cur ≤ t) (htw : t < w1) :
    (∃ g ∈ missingGo w0 w1 cur L, g.lo ≤ t ∧ t < g.hi) ∨
      (∃ h ∈ L, h.lo ≤ t ∧ t < h.hi) := by
  induction L generalizing cur with
  | nil =>
    refine Or.inl ⟨⟨cur, w1⟩, ?_, hct, htw⟩
    simp only [missingGo]
    rw [if_pos (by omega)]
    exact List.mem_singleton.mpr rfl
  | cons h rest ih =>
    simp only [missingGo]
    by_cases hskip : h.hi ≤ w0 ∨ w1 ≤ h.lo
    · rw [if_pos hskip]
      rcases ih cur hct with hgap | ⟨x, hx, hxt⟩
      · exact Or.inl hgap
      · exact Or.inr ⟨x, List.mem_cons_of_mem _ hx, hxt⟩
    · rw [if_neg hskip]
      push_neg at hskip
      by_cases hts : t < max h.lo w0
      · -- `t` lies before the current coverage interval: it is in the `pre` gap
        have hcs : cur < max h.lo w0 := by omega
        refine Or.inl ⟨⟨cur, max h.lo w0⟩, ?_, hct, hts⟩
        by_cases hbrk : w1 ≤ max cur (min h.hi w1)
        · rw [if_pos hbrk, if_pos hcs]
          exact List.mem_singleton.mpr rfl
        · rw [if_neg hbrk, if_pos hcs]
          exact List.mem_append.mpr (Or.inl (List.mem_singleton.mpr rfl))
      · by_cases hte : t < min h.hi w1
        · exact Or.inr ⟨h, List.mem_cons_self _ _, by omega, by omega⟩
        · -- `t` lies at or beyond the clipped end of the current interval
          have hcur2 : max cur (min h.hi w1) ≤ t := by omega
          by_cases hbrk : w1 ≤ max cur (min h.hi w1)
          · omega
          · rw [if_neg hbrk]
            rcases ih (max cur (min h.hi w1)) hcur2 with ⟨g, hg, hgt⟩ | ⟨x, hx, hxt⟩
            · exact Or.inl ⟨g, List.mem_append.mpr (Or.inr hg), hgt⟩
            · exact Or.inr ⟨x, List.mem_cons_of_mem _ hx, hxt⟩

theorem missingGo_disjoint {w0 w1 : Int} (L : List Iv) (cur : Int)
    (hcur : w0 ≤ cur) (hw : w0 < w1) (hL : ∀ h ∈ L, h.lo < h.hi)
    (hpw : List.Pairwise (fun a b : Iv => a.hi < b.lo) L) :
    ∀ g ∈ missingGo w0 w1 cur L, ∀ h ∈ L, g.hi ≤ h.lo ∨ h.hi ≤ g.lo := by
  induction L generalizing cur with
  | nil => intro g _ h hh; simp at hh
  | cons h0 rest ih =>
    intro g hg h hh
    have hrest : ∀ x ∈ rest, x.lo < x.hi := fun x hx => hL x (List.mem_cons_of_mem _ hx)
    have hh0 : h0.lo < h0.hi := hL h0 (List.mem_cons_self _ _)
    rcases List.pairwise_cons.mp hpw with ⟨hsep, hpwrest⟩
    simp only [missingGo] at hg
    split at hg
    · -- skipped interval: the gaps all live inside `[cur, w1)`, away from `h0`
      rename_i hskip
      rcases List.mem_cons.mp hh with rfl | hh'
      · have hb := missingGo_bounds rest cur hcur hw g hg
        rcases hskip with hskip | hskip
        · right; omega
        · left; omega
      · exact ih cur hcur hrest hpwrest g hg h hh'
    · rename_i hns
      push_neg at hns
      -- a `pre` gap is disjoint from every interval of `h0 :: rest`
      have hpre_disj : ∀ g' ∈ (if cur < max h0.lo w0 then [(⟨cur, max h0.lo w0⟩ : Iv)] else []),
          ∀ h' ∈ h0 :: rest, g'.hi ≤ h'.lo ∨ h'.hi ≤ g'.lo := by
        intro g' hg' h' hh'
        split at hg'
        · rename_i hcs
          simp only [List.mem_singleton] at hg'
          subst hg'
          dsimp only
          rcases List.mem_cons.mp hh' with rfl | hh'
          · left; omega
          · have hs : h0.hi < h'.lo := hsep h' hh'
            left; omega
        · simp at hg'
      split at hg
      · exact hpre_disj g hg h hh
      · rcases List.mem_append.mp hg with hg' | hg'
        · exact hpre_disj g hg' h hh
        · rename_i hnb
          have hcur2 : w0 ≤ max cur (min h0.hi w1) := by omega
          rcases List.mem_cons.mp hh with rfl | hh'
          · -- recursive gaps start at or after the clipped end of `h0`
            have hb := missingGo_bounds rest (max cur (min h.hi w1)) hcur2 hw g hg'
            right
            omega
          · exact ih (max cur (min h0.hi w1)) hcur2 hrest hpwrest g hg' h hh'

/-! ### Claim C1 -/
/-- C1: for every requested half-open range `[F,T)` with `F < T` and every finite
set of (proper) coverage intervals `hs`, the gap list `missing ⟨F,T⟩ hs` of the
engine is an ordered list of disjoint non-empty sub-intervals of `[F,T)`; its
union together with the merged coverage `merge hs` covers all of `[F,T)`; it is
disjoint from the merged coverage; and it is invariant under re-ordering of the
coverage set (hence of minimal length over all orderings producing the same
merged coverage). -/
theorem C1_gap_computation (F T : Int) (hs : List Iv)
    (hFT : F < T) (hproper : ∀ h ∈ hs, h.lo < h.hi) :
    (∀ g ∈ missing ⟨F, T⟩ hs, F ≤ g.lo ∧ g.lo < g.hi ∧ g.hi ≤ T) ∧
      List.Chain' (fun a b : Iv => a.hi < b.lo) (missing ⟨F, T⟩ hs) ∧
      (∀ t : Int, F ≤ t → t < T →
        (∃ g ∈ missing ⟨F, T⟩ hs, g.lo ≤ t ∧ t < g.hi) ∨
          (∃ h ∈ merge hs, h.lo ≤ t ∧ t < h.hi)) ∧
      (∀ g ∈ missing ⟨F, T⟩ hs, ∀ h ∈ merge hs, g.hi ≤ h.lo ∨ h.hi ≤ g.lo) ∧
      (∀ hs' : List Iv, hs'.Perm hs → missing ⟨F, T⟩ hs' = missing ⟨F, T⟩ hs) := by
  have hmp : ∀ g ∈ merge hs, g.lo < g.hi := merge_proper hs hproper
  have hmpw : List.Pairwise (fun a b : Iv => a.hi < b.lo) (merge hs) :=
    pairwise_of_chain_sep (merge hs) hmp (merge_chain hs)
  refine ⟨?_, ?_, ?_, ?_, ?_⟩
  · intro g hg
    exact missingGo_bounds (merge hs) F (le_refl F) hFT g hg
  · exact missingGo_chain (merge hs) F (le_refl F) hFT hmp
  · intro t h1 h2
    exact missingGo_cover (merge hs) F t h1 h2
  · intro g hg h hh
    exact missingGo_disjoint (merge hs) F (le_refl F) hFT hmp hmpw g hg h hh
  · intro hs' hp
    unfold missing
    rw [merge_perm_invariant hs' hs hp]

/-- Witness for C1 at `[F,T) = [0,10)`, coverage `{[2,4), [6,7)}`. -/
theorem C1_gap_computation_witness :
    ((0 : Int) < 10 ∧ ∀ h ∈ [Iv.mk 2 4, Iv.mk 6 7], h.lo < h.hi) ∧
      ((∀ g ∈ missing ⟨0, 10⟩ [Iv.mk 2 4, Iv.mk 6 7],
          (0 : Int) ≤ g.lo ∧ g.lo < g.hi ∧ g.hi ≤ 10) ∧
        List.Chain' (fun a b : Iv => a.hi < b.lo)
          (missing ⟨0, 10⟩ [Iv.mk 2 4, Iv.mk 6 7]) ∧
        (∀ t : Int, (0 : Int) ≤ t → t < 10 →
          (∃ g ∈ missing ⟨0, 10⟩ [Iv.mk 2 4, Iv.mk 6 7], g.lo ≤ t ∧ t < g.hi) ∨
            (∃ h ∈ merge [Iv.mk 2 4, Iv.mk 6 7], h.lo ≤ t ∧ t < h.hi)) ∧
        (∀ g ∈ missing ⟨0, 10⟩ [Iv.mk 2 4, Iv.mk 6 7],
          ∀ h ∈ merge [Iv.mk 2 4, Iv.mk 6 7], g.hi ≤ h.lo ∨ h.hi ≤ g.lo) ∧
        (∀ hs' : List Iv, hs'.Perm [Iv.mk 2 4, Iv.mk 6 7] →
          missing ⟨0, 10⟩ hs' = missing ⟨0, 10⟩ [Iv.mk 2 4, Iv.mk 6 7])) :=
  ⟨⟨by decide, by decide⟩,
    C1_gap_computation 0 10 [Iv.mk 2 4, Iv.mk 6 7] (by decide) (by decide)⟩

/-! ### Lemmas about the frame pipeline -/
theorem uniqueFirstGo_spec (l : List Row) : ∀ seen : List Row,
    (uniqueFirstGo seen l).Nodup ∧ ∀ r ∈ uniqueFirstGo seen l, r ∉ seen := by
  induction l with
  | nil => intro seen; simp [uniqueFirstGo]
  | cons r rs ih =>
    intro seen
    by_cases hr : r ∈ seen
    · simpa [uniqueFirstGo, hr] using ih seen
    · simp only [uniqueFirstGo, if_neg hr]
      obtain ⟨hnd, hnin⟩ := ih (r :: seen)
      refine ⟨List.nodup_cons.mpr ⟨fun hmem => hnin r hmem (List.mem_cons_self _ _), hnd⟩, ?_⟩
      intro x hx
      rcases List.mem_cons.mp hx with rfl | hx'
      · exact hr
      · exact fun hxs => hnin x hx' (List.mem_cons_of_mem _ hxs)

theorem uniqueFirst_nodup (l : List Row) : (uniqueFirst l).Nodup :=
  (uniqueFirstGo_spec l []).1

theorem foldlM_vstack_cols (rest : List Frame) (acc df : Frame)
    (h : rest.foldlM vstack acc = .ok df) :
    df.cols = acc.cols ∧ ∀ f ∈ rest, f.cols = acc.cols := by
  induction rest generalizing acc with
  | nil =>
    simp only [List.foldlM, pure, Except.pure, Except.ok.injEq] at h
    subst h
    exact ⟨rfl, by simp⟩
  | cons f fs ih =>
    simp only [List.foldlM] at h
    cases hv : vstack acc f with
    | error e =>
      rw [hv] at h
      simp [Bind.bind, Except.bind] at h
    | ok m =>
      rw [hv] at h
      simp only [Bind.bind, Except.bind] at h
      unfold vstack at hv
      split at hv
      · rename_i hcols
        have hm : m = ⟨acc.cols, acc.rows ++ f.rows⟩ := by
          cases hv; rfl
        obtain ⟨h1, h2⟩ := ih m h
        subst hm
        refine ⟨h1, ?_⟩
        intro g hg
        rcases List.mem_cons.mp hg with rfl | hg'
        · exact hcols.symm
        · exact h2 g hg'
      · cases hv

theorem concat_and_trim_ok_inv (frames : List Frame) (F T : Int) (out : Frame)
    (h : concat_and_trim frames F T = .ok out) :
    ∃ i rows0, colIdx out.cols "timestamp" = some i ∧
      out.rows = (uniqueFirst (sortRows i rows0)).filter (inRange i F T) := by
  match frames with
  | [] => simp [concat_and_trim] at h
  | df0 :: rest =>
    simp only [concat_and_trim] at h
    cases hfold : rest.foldlM vstack df0 with
    | error e =>
      rw [hfold] at h
      simp [Bind.bind, Except.bind] at h
    | ok df =>
      rw [hfold] at h
      simp only [Bind.bind, Except.bind] at h
      cases hidx : colIdx df.cols "timestamp" with
      | none => rw [hidx] at h; cases h
      | some i =>
        rw [hidx] at h
        cases h
        exact ⟨i, df.rows, hidx, rfl⟩

theorem clamp_overlap_some (a0 a1 b0 b1 : Int) (p : Int × Int)
    (h : clamp_overlap a0 a1 b0 b1 = some p) :
    p.1 = max a0 b0 ∧ p.2 = min a1 b1 ∧ p.1 < p.2 := by
  simp only [clamp_overlap] at h
  split at h
  · cases h
    exact ⟨rfl, rfl, by assumption⟩
  · cases h

theorem clampedIvs_proper (cs : List (Int × Int)) (F T : Int) :
    ∀ h ∈ clampedIvs cs F T, h.lo < h.hi := by
  intro h hmem
  obtain ⟨c, _, hc⟩ := List.mem_filterMap.mp hmem
  cases hp : clamp_overlap c.1 c.2 F T with
  | none => rw [hp] at hc; cases hc
  | some p =>
    rw [hp] at hc
    obtain ⟨_, _, hlt⟩ := clamp_overlap_some c.1 c.2 F T p hp
    cases hc
    exact hlt

/-! ### Claim C2 -/
/-- C2 counterexample: `concat_and_trim` de-duplicates by ENTIRE row
(`unique(None, First)`), not by time key.  Two rows with the same timestamp `1`
but different `v` both survive, so two rows of the returned data share the same
time-key value. -/
theorem C2_counterexample :
    concat_and_trim
        [⟨["timestamp", "v"], [[Val.int 1, Val.int 1]]⟩,
          ⟨["timestamp", "v"], [[Val.int 1, Val.int 2]]⟩] 0 10 =
      .ok ⟨["timestamp", "v"], [[Val.int 1, Val.int 1], [Val.int 1, Val.int 2]]⟩ ∧
      rowTsAt 0 [Val.int 1, Val.int 1] = rowTsAt 0 [Val.int 1, Val.int 2] ∧
      ([Val.int 1, Val.int 1] : Row) ≠ [Val.int 1, Val.int 2] :=
  ⟨rfl, rfl, by decide⟩

/-- C2 (amended): after a successful stitch-merge no two rows of the returned
data are identical as WHOLE rows — the duplicate-dropping step compares the
entire row and keeps the first occurrence, so rows that agree on the time key
but differ in another column are all retained. -/
theorem C2_no_duplicate_rows (frames : List Frame) (F T : Int) (out : Frame)
    (h : concat_and_trim frames F T = .ok out) : out.rows.Nodup := by
  obtain ⟨i, rows0, _, hrows⟩ := concat_and_trim_ok_inv frames F T out h
  rw [hrows]
  exact (uniqueFirst_nodup (sortRows i rows0)).filter _

/-- Witness for C2 (amended) at the counterexample input. -/
theorem C2_no_duplicate_rows_witness :
    concat_and_trim
        [⟨["timestamp", "v"], [[Val.int 1, Val.int 1]]⟩,
          ⟨["timestamp", "v"], [[Val.int 1, Val.int 2]]⟩] 0 10 =
      .ok ⟨["timestamp", "v"], [[Val.int 1, Val.int 1], [Val.int 1, Val.int 2]]⟩ ∧
      (Frame.mk ["timestamp", "v"]
        [[Val.int 1, Val.int 1], [Val.int 1, Val.int 2]]).rows.Nodup :=
  ⟨rfl,
    C2_no_duplicate_rows
      [⟨["timestamp", "v"], [[Val.int 1, Val.int 1]]⟩,
        ⟨["timestamp", "v"], [[Val.int 1, Val.int 2]]⟩] 0 10
      ⟨["timestamp", "v"], [[Val.int 1, Val.int 1], [Val.int 1, Val.int 2]]⟩ rfl⟩

/-! ### Claim C3 -/
/-- C3: for every successful stitch for `[F,T)`, (i) every row of the returned
frame has an integer time key `ts` with `F ≤ ts < T` (the final filter clamps to
the half-open range), and (ii) at the interval level every instant of `[F,T)`
is covered either by a gap that the engine fetches (`missing`) or by a clipped
cached slice (`clamp_overlap`), so the stitched data covers `[F,T)`. -/
theorem C3_range_exact_and_cover (frames : List Frame) (F T : Int) (out : Frame)
    (cs : List (Int × Int)) (_hFT : F < T)
    (h : concat_and_trim frames F T = .ok out) :
    (∀ r ∈ out.rows, ∃ i ts, colIdx out.cols "timestamp" = some i ∧
        rowTsAt i r = some ts ∧ F ≤ ts ∧ ts < T) ∧
      (∀ t : Int, F ≤ t → t < T →
        (∃ g ∈ missing ⟨F, T⟩ (clampedIvs cs F T), g.lo ≤ t ∧ t < g.hi) ∨
          (∃ c ∈ cs, ∃ p, clamp_overlap c.1 c.2 F T = some p ∧ p.1 ≤ t ∧ t < p.2)) := by
  constructor
  · intro r hr
    obtain ⟨i, rows0, hidx, hrows⟩ := concat_and_trim_ok_inv frames F T out h
    rw [hrows] at hr
    have hfr := (List.mem_filter.mp hr).2
    refine ⟨i, ?_⟩
    unfold inRange at hfr
    cases hts : rowTsAt i r with
    | none => rw [hts] at hfr; simp at hfr
    | some ts =>
      rw [hts] at hfr
      simp only [decide_eq_true_eq] at hfr
      exact ⟨ts, hidx, rfl, hfr.1, hfr.2⟩
  · intro t h1 h2
    rcases missingGo_cover (merge (clampedIvs cs F T)) F t h1 h2 with hgap | hmem
    · exact Or.inl hgap
    · right
      obtain ⟨x, hx, hxt⟩ := merge_subset_union (clampedIvs cs F T) t hmem
      obtain ⟨c, hc, hcx⟩ := List.mem_filterMap.mp hx
      cases hp : clamp_overlap c.1 c.2 F T with
      | none => rw [hp] at hcx; cases hcx
      | some p =>
        rw [hp] at hcx
        cases hcx
        exact ⟨c, hc, p, hp, hxt.1, hxt.2⟩

/-- Witness for C3: a single cached frame with row at `t = 5`, request `[0,10)`,
candidate slice `[2,4)`. -/
theorem C3_range_exact_and_cover_witness :
    ((0 : Int) < 10 ∧
        concat_and_trim [⟨["timestamp"], [[Val.int 5]]⟩] 0 10 =
          .ok ⟨["timestamp"], [[Val.int 5]]⟩) ∧
      ((∀ r ∈ (Frame.mk ["timestamp"] [[Val.int 5]]).rows,
          ∃ i ts, colIdx (Frame.mk ["timestamp"] [[Val.int 5]]).cols "timestamp" = some i ∧
            rowTsAt i r = some ts ∧ (0 : Int) ≤ ts ∧ ts < 10) ∧
        (∀ t : Int, (0 : Int) ≤ t → t < 10 →
          (∃ g ∈ missing ⟨0, 10⟩ (clampedIvs [((2 : Int), (4 : Int))] 0 10),
              g.lo ≤ t ∧ t < g.hi) ∨
            (∃ c ∈ [((2 : Int), (4 : Int))], ∃ p,
              clamp_overlap c.1 c.2 0 10 = some p ∧ p.1 ≤ t ∧ t < p.2))) :=
  ⟨⟨by decide, rfl⟩,
    C3_range_exact_and_cover [⟨["timestamp"], [[Val.int 5]]⟩] 0 10
      ⟨["timestamp"], [[Val.int 5]]⟩ [((2 : Int), (4 : Int))] (by decide) rfl⟩

/-! ### Claim C5 -/
theorem mem_insertSortedStr (s : String) (l : List String) (x : String) :
    x ∈ insertSortedStr s l ↔ x = s ∨ x ∈ l := by
  induction l with
  | nil => simp [insertSortedStr]
  | cons y ys ih =>
    simp only [insertSortedStr]
    by_cases h1 : s < y
    · simp [h1, List.mem_cons]
    · rw [if_neg h1]
      by_cases h2 : s = y
      · subst h2
        rw [if_pos rfl]
        simp [List.mem_cons]
      · rw [if_neg h2]
        simp [List.mem_cons, ih]
        tauto

theorem mem_btreeSet_aux (l : List String) (acc : List String) (x : String) :
    x ∈ l.foldl (fun acc s => insertSortedStr s acc) acc ↔ x ∈ acc ∨ x ∈ l := by
  induction l generalizing acc with
  | nil => simp
  | cons s ss ih =>
    simp only [List.foldl_cons]
    rw [ih, mem_insertSortedStr]
    simp [List.mem_cons]
    tauto

theorem mem_btreeSet (l : List String) (x : String) : x ∈ btreeSet l ↔ x ∈ l := by
  unfold btreeSet
  rw [mem_btreeSet_aux]
  simp

theorem alignCell_null (df : Frame) (r : Row) (n : String) (hn : n ∉ df.cols) :
    alignCell df r n = Val.null := by
  unfold alignCell colIdx
  have hnone : df.cols.findIdx? (· == n) = none := by
    rw [List.findIdx?_eq_none_iff]
    intro x hx
    simp only [beq_eq_false_iff_ne, ne_eq]
    intro he
    exact hn (he ▸ hx)
  rw [hnone]

theorem concat_and_trim_mismatch (df0 : Frame) (rest : List Frame) (F T : Int)
    (hmm : ∃ f ∈ rest, f.cols ≠ df0.cols) :
    ∀ out, concat_and_trim (df0 :: rest) F T ≠ .ok out := by
  intro out h
  simp only [concat_and_trim] at h
  cases hfold : rest.foldlM vstack df0 with
  | error e =>
    rw [hfold] at h
    simp [Bind.bind, Except.bind] at h
  | ok df =>
    obtain ⟨f, hf, hne⟩ := hmm
    exact hne ((foldlM_vstack_cols rest df0 df hfold).2 f hf)

/-- C5 counterexample: the stitch merge path (`concat_and_trim`) does NOT align
schemas — on frames with differing column sets it fails with the vstack error
instead of producing a frame whose schema is the union of the column names. -/
theorem C5_counterexample :
    concat_and_trim
        [⟨["timestamp"], [[Val.int 1]]⟩,
          ⟨["timestamp", "v"], [[Val.int 1, Val.int 2]]⟩] 0 10 =
      .error "concat/vstack error: column names do not match" := rfl

/-- C5 (amended): the stitch merge (`concat_and_trim`) requires all frames to
share the first frame's schema and returns an error otherwise; the separate —
and never invoked — helper `align_columns` is what produces the union schema:
each of its output frames carries the sorted union of all input column names,
a name is in that union exactly when some input frame has it, and a cell in a
column its source frame lacked is `null`. -/
theorem C5_vstack_requires_equal_schemas (df0 : Frame) (rest : List Frame)
    (F T : Int) (dfs : List Frame)
    (hmm : ∃ f ∈ rest, f.cols ≠ df0.cols) :
    (∀ out, concat_and_trim (df0 :: rest) F T ≠ .ok out) ∧
      (∀ g ∈ align_columns dfs,
        g.cols = btreeSet (List.flatten (dfs.map (·.cols)))) ∧
      (∀ n, n ∈ btreeSet (List.flatten (dfs.map (·.cols))) ↔
        ∃ df ∈ dfs, n ∈ df.cols) ∧
      (∀ df r n, n ∉ df.cols → alignCell df r n = Val.null) ∧
      (∀ df ∈ dfs,
        Frame.mk (btreeSet (List.flatten (dfs.map (·.cols))))
            (df.rows.map (fun r =>
              (btreeSet (List.flatten (dfs.map (·.cols)))).map (alignCell df r)))
          ∈ align_columns dfs) := by
  refine ⟨concat_and_trim_mismatch df0 rest F T hmm, ?_, ?_, ?_, ?_⟩
  · intro g hg
    simp only [align_columns, List.mem_map] at hg
    obtain ⟨df, _, rfl⟩ := hg
    rfl
  · intro n
    rw [mem_btreeSet]
    simp [List.mem_flatten, List.mem_map]
  · exact alignCell_null
  · intro df hdf
    simp only [align_columns, List.mem_map]
    exact ⟨df, hdf, rfl⟩

/-- Witness for C5 (amended), at two single-column frames `a` / `b`. -/
theorem C5_vstack_requires_equal_schemas_witness :
    (∃ f ∈ [Frame.mk ["b"] []], f.cols ≠ (Frame.mk ["a"] []).cols) ∧
      ((∀ out, concat_and_trim [Frame.mk ["a"] [], Frame.mk ["b"] []] 0 10 ≠ .ok out) ∧
        (∀ g ∈ align_columns [Frame.mk ["a"] [], Frame.mk ["b"] []],
          g.cols = btreeSet (List.flatten
            ([Frame.mk ["a"] [], Frame.mk ["b"] []].map (·.cols)))) ∧
        (∀ n, n ∈ btreeSet (List.flatten
            ([Frame.mk ["a"] [], Frame.mk ["b"] []].map (·.cols))) ↔
          ∃ df ∈ [Frame.mk ["a"] [], Frame.mk ["b"] []], n ∈ df.cols) ∧
        (∀ df r n, n ∉ df.cols → alignCell df r n = Val.null) ∧
        (∀ df ∈ [Frame.mk ["a"] [], Frame.mk ["b"] []],
          Frame.mk (btreeSet (List.flatten
              ([Frame.mk ["a"] [], Frame.mk ["b"] []].map (·.cols))))
              (df.rows.map (fun r =>
                (btreeSet (List.flatten
                  ([Frame.mk ["a"] [], Frame.mk ["b"] []].map (·.cols)))).map
                  (alignCell df r)))
            ∈ align_columns [Frame.mk ["a"] [], Frame.mk ["b"] []])) :=
  ⟨⟨Frame.mk ["b"] [], by simp, by decide⟩,
    C5_vstack_requires_equal_schemas (Frame.mk ["a"] []) [Frame.mk ["b"] []] 0 10
      [Frame.mk ["a"] [], Frame.mk ["b"] []]
      ⟨Frame.mk ["b"] [], by simp, by decide⟩⟩

/-! ### Claim C7 -/
/-- C7: a `ProviderRequest` naming a provider absent from the registry is
answered (the per-envelope processing is a total function producing exactly one
response envelope — it cannot throw or terminate the connection) with
`ok = false`, `kind = ProviderRequest`, the provider name echoed, and error
code `provider_not_found`. -/
theorem C7_unknown_provider (ps : List (String × Adapter)) (request_id provider : String)
    (request : EntityInProvider) (hnone : lookupProvider ps provider = none) :
    processParsed ps request_id (.ProviderRequest provider request) =
      { ok := false, request_id := some request_id, kind := .ProviderRequest,
        provider := some provider, request_kind := some (requestKindStr request),
        result := none,
        error := some ⟨some "provider_not_found",
          "unknown provider '" ++ provider ++ "'"⟩ } := by
  simp only [processParsed, hnone]

/-- Witness for C7 at the empty registry and provider name `ghost`. -/
theorem C7_unknown_provider_witness :
    lookupProvider [] "ghost" = none ∧
      processParsed [] "r1" (.ProviderRequest "ghost" (.GetEntity "x")) =
        { ok := false, request_id := some "r1", kind := .ProviderRequest,
          provider := some "ghost", request_kind := some (requestKindStr (.GetEntity "x")),
          result := none,
          error := some ⟨some "provider_not_found",
            "unknown provider '" ++ "ghost" ++ "'"⟩ } :=
  ⟨rfl, C7_unknown_provider [] "r1" "ghost" (.GetEntity "x") rfl⟩

/-! ### Claim C8 -/
/-- C8: with authentication enabled, an envelope carrying neither `token` nor
`access_token` is answered `ok = false, kind = Unauthorized, code =
missing_token` — the response does not depend on the registry or validator, so
the request is never dispatched; with authentication disabled the same
envelope is dispatched and processed normally. -/
theorem C8_auth_gate (validate : String → Except String String)
    (ps : List (String × Adapter)) (request_id : String) (q : QueryEnvelopePayload) :
    handleEnvelope true validate ps none none request_id q =
        { ok := false, request_id := some request_id, kind := .Unauthorized,
          provider := none, request_kind := none, result := none,
          error := some ⟨some "missing_token",
            "auth is enabled but no token was provided"⟩ } ∧
      handleEnvelope false validate ps none none request_id q =
        processParsed ps request_id q :=
  ⟨rfl, rfl⟩

/-! ### Claim C6 -/
/-- C6: for a `ProviderRequest(SearchEntities)` whose filters contain both a
`Ticker` and a `DateRange`, the yahoo adapter's `fetch_entities` invokes
`stitch` on exactly those filters (the stitch-call log is `[query]`), and the
server's one success response carries the stitched entity as its result (a
one-entity list). -/
theorem C6_search_with_range_stitches
    (stitchFn : List EntityFilter → Except String Entity)
    (ensureFn : String → String → String → Except String Entity)
    (store : String → Option Entity)
    (upstream : String → String → String → Except String Frame)
    (allEntities : List Entity) (defFrom defTo nowStr refreshStr : String)
    (query : List EntityFilter) (lim : Option Nat) (request_id : String) (ent : Entity)
    (ht : ∃ t, EntityFilter.Ticker t ∈ query)
    (hr : ∃ s e, EntityFilter.DateRange s e ∈ query)
    (hst : stitchFn query = .ok ent) :
    (yahoo_fetch_SearchEntities stitchFn ensureFn defFrom defTo query).2 = [query] ∧
      processParsed
          [("yahoo_finance",
            yahoo_fetch_entities store upstream stitchFn ensureFn allEntities
              defFrom defTo nowStr refreshStr)] request_id
          (.ProviderRequest "yahoo_finance" (.SearchEntities query lim)) =
        { ok := true, request_id := some request_id, kind := .ProviderRequest,
          provider := some "yahoo_finance", request_kind := some "SearchEntities",
          result := some (.entities [ent]), error := none } := by
  have hticker : query.any (fun f => match f with | .Ticker _ => true | _ => false) = true := by
    obtain ⟨t, htm⟩ := ht
    exact List.any_eq_true.mpr ⟨_, htm, rfl⟩
  have hrange :
      query.any (fun f => match f with | .DateRange _ _ => true | _ => false) = true := by
    obtain ⟨s, e, hrm⟩ := hr
    exact List.any_eq_true.mpr ⟨_, hrm, rfl⟩
  constructor
  · simp only [yahoo_fetch_SearchEntities, hticker, hrange, Bool.and_self, if_true, hst]
  · simp [processParsed, lookupProvider, yahoo_fetch_entities,
      yahoo_fetch_SearchEntities, hticker, hrange, hst, requestKindStr]

/-- Witness for C6: filters `[Ticker AAPL, DateRange F U]` against a stitch
oracle returning `entX`. -/
theorem C6_search_with_range_stitches_witness :
    ((∃ t, EntityFilter.Ticker t ∈
        [EntityFilter.Ticker "AAPL", EntityFilter.DateRange "F" "U"]) ∧
      (∃ s e, EntityFilter.DateRange s e ∈
        [EntityFilter.Ticker "AAPL", EntityFilter.DateRange "F" "U"]) ∧
      (fun _ : List EntityFilter => Except.ok (ε := String) entX)
        [EntityFilter.Ticker "AAPL", EntityFilter.DateRange "F" "U"] = .ok entX) ∧
      ((yahoo_fetch_SearchEntities (fun _ => Except.ok (ε := String) entX)
          (fun _ _ _ => .error "") "f" "t"
          [EntityFilter.Ticker "AAPL", EntityFilter.DateRange "F" "U"]).2 =
        [[EntityFilter.Ticker "AAPL", EntityFilter.DateRange "F" "U"]] ∧
        processParsed
            [("yahoo_finance",
              yahoo_fetch_entities (fun _ => none) (fun _ _ _ => .error "")
                (fun _ => Except.ok (ε := String) entX) (fun _ _ _ => .error "") []
                "f" "t" "n" "r")] "r1"
            (.ProviderRequest "yahoo_finance"
              (.SearchEntities [EntityFilter.Ticker "AAPL", EntityFilter.DateRange "F" "U"] none)) =
          { ok := true, request_id := some "r1", kind := .ProviderRequest,
            provider := some "yahoo_finance", request_kind := some "SearchEntities",
            result := some (.entities [entX]), error := none }) :=
  ⟨⟨⟨"AAPL", by decide⟩, ⟨"F", "U", by decide⟩, rfl⟩,
    C6_search_with_range_stitches (fun _ => Except.ok (ε := String) entX)
      (fun _ _ _ => .error "") (fun _ => none) (fun _ _ _ => .error "") []
      "f" "t" "n" "r"
      [EntityFilter.Ticker "AAPL", EntityFilter.DateRange "F" "U"] none "r1" entX
      ⟨"AAPL", by decide⟩ ⟨"F", "U", by decide⟩ rfl⟩

/-! ### Claim C9 -/
/-- C9: the etag written by `persist_yahoo_df_as_entity` is a deterministic
pure function of the serialized data string: two persist calls whose frames
serialize to the same data string get equal etags (whatever their source,
ticker, window or clock), and the stored etag always equals
`make_etag` of the stored data. -/
theorem C9_etag_pure (s1 t1 f1 o1 : String) (df1 : Frame) (n1 r1 : String)
    (s2 t2 f2 o2 : String) (df2 : Frame) (n2 r2 : String)
    (h : df_to_json_records df1 = df_to_json_records df2) :
    (persist_yahoo_df_as_entity s1 t1 f1 o1 df1 n1 r1).etag =
        (persist_yahoo_df_as_entity s2 t2 f2 o2 df2 n2 r2).etag ∧
      (persist_yahoo_df_as_entity s1 t1 f1 o1 df1 n1 r1).etag =
        make_etag ((persist_yahoo_df_as_entity s1 t1 f1 o1 df1 n1 r1).data) := by
  constructor
  · simp only [persist_yahoo_df_as_entity]
    rw [h]
  · rfl

/-- Witness for C9: equal one-row frames persisted under different metadata. -/
theorem C9_etag_pure_witness :
    df_to_json_records ⟨["t"], [[Val.int 1]]⟩ = df_to_json_records ⟨["t"], [[Val.int 1]]⟩ ∧
      ((persist_yahoo_df_as_entity "yahoo_finance" "AAPL" "F" "U"
            ⟨["t"], [[Val.int 1]]⟩ "n1" "r1").etag =
          (persist_yahoo_df_as_entity "yahoo_finance" "MSFT" "F2" "U2"
            ⟨["t"], [[Val.int 1]]⟩ "n2" "r2").etag ∧
        (persist_yahoo_df_as_entity "yahoo_finance" "AAPL" "F" "U"
            ⟨["t"], [[Val.int 1]]⟩ "n1" "r1").etag =
          make_etag ((persist_yahoo_df_as_entity "yahoo_finance" "AAPL" "F" "U"
            ⟨["t"], [[Val.int 1]]⟩ "n1" "r1").data)) :=
  ⟨rfl,
    C9_etag_pure "yahoo_finance" "AAPL" "F" "U" ⟨["t"], [[Val.int 1]]⟩ "n1" "r1"
      "yahoo_finance" "MSFT" "F2" "U2" ⟨["t"], [[Val.int 1]]⟩ "n2" "r2" rfl⟩

/-! ### Claim C10 -/
/-- C10 counterexample: `ensure_entity_in_db` is DB-first on the COMPOSED id —
when `yahoo_finance:AAPL:F..U` is already cached, a `GetEntity AAPL` with the
id `AAPL` absent from the store issues NO upstream fetch (empty call log) and
returns the cached entity, contrary to the claim that it fetches upstream and
persists the result. -/
theorem C10_counterexample :
    storeC "AAPL" = none ∧
      yahoo_fetch_GetEntity storeC upstreamC "F" "U" "n" "r" "AAPL" = (.ok [entC], [], []) ∧
      (yahoo_fetch_GetEntity storeC upstreamC "F" "U" "n" "r" "AAPL").2.1 ≠
        [("AAPL", "F", "U")] := by
  refine ⟨rfl, rfl, ?_⟩
  decide

/-- C10 (amended): for `GetEntity id` the yahoo provider is DB-first twice:
a store hit on `id` itself is returned; otherwise a store hit on the composed
id `yahoo_finance:{id}:{from}..{to}` (default 30-day window) is returned with
no upstream call; only when both miss does it fetch upstream once for the
default window, persist under the composed id, and return that entity.  In
every successful case exactly one entity is returned — never an empty list. -/
theorem C10_getentity_behavior (store : String → Option Entity)
    (upstream : String → String → String → Except String Frame)
    (fromS toS nowStr refreshStr : String) (id : String) :
    (∀ e, store id = some e →
      yahoo_fetch_GetEntity store upstream fromS toS nowStr refreshStr id =
        (.ok [e], [], [])) ∧
      (store id = none →
        ∀ e, store (compute_id "yahoo_finance" id fromS toS) = some e →
          yahoo_fetch_GetEntity store upstream fromS toS nowStr refreshStr id =
            (.ok [e], [], [])) ∧
      (store id = none →
        store (compute_id "yahoo_finance" id fromS toS) = none →
        ∀ df, upstream id fromS toS = .ok df →
          yahoo_fetch_GetEntity store upstream fromS toS nowStr refreshStr id =
            (.ok [persist_yahoo_df_as_entity "yahoo_finance" id fromS toS df nowStr refreshStr],
              [(id, fromS, toS)],
              [persist_yahoo_df_as_entity "yahoo_finance" id fromS toS df nowStr refreshStr])) ∧
      (∀ res,
        (yahoo_fetch_GetEntity store upstream fromS toS nowStr refreshStr id).1 = .ok res →
        res.length = 1) := by
  refine ⟨?_, ?_, ?_, ?_⟩
  · intro e he
    simp [yahoo_fetch_GetEntity, he]
  · intro h1 e he
    simp [yahoo_fetch_GetEntity, h1, he]
  · intro h1 h2 df hdf
    simp [yahoo_fetch_GetEntity, h1, h2, hdf]
  · intro res hres
    unfold yahoo_fetch_GetEntity at hres
    cases h1 : store id with
    | some e =>
      rw [h1] at hres
      simp only [Except.ok.injEq] at hres
      subst hres
      rfl
    | none =>
      rw [h1] at hres
      cases h2 : store (compute_id "yahoo_finance" id fromS toS) with
      | some e =>
        rw [h2] at hres
        simp only [Except.ok.injEq] at hres
        subst hres
        rfl
      | none =>
        rw [h2] at hres
        cases h3 : upstream id fromS toS with
        | error e =>
          rw [h3] at hres
          cases hres
        | ok df =>
          rw [h3] at hres
          simp only [Except.ok.injEq] at hres
          subst hres
          rfl

/-- Witness for C10 (amended), at a store holding only the composed id. -/
theorem C10_getentity_behavior_witness :
    ((∀ e, storeC "AAPL" = some e →
        yahoo_fetch_GetEntity storeC upstreamC "F" "U" "n" "r" "AAPL" =
          (.ok [e], [], [])) ∧
      (storeC "AAPL" = none →
        ∀ e, storeC (compute_id "yahoo_finance" "AAPL" "F" "U") = some e →
          yahoo_fetch_GetEntity storeC upstreamC "F" "U" "n" "r" "AAPL" =
            (.ok [e], [], [])) ∧
      (storeC "AAPL" = none →
        storeC (compute_id "yahoo_finance" "AAPL" "F" "U") = none →
        ∀ df, upstreamC "AAPL" "F" "U" = .ok df →
          yahoo_fetch_GetEntity storeC upstreamC "F" "U" "n" "r" "AAPL" =
            (.ok [persist_yahoo_df_as_entity "yahoo_finance" "AAPL" "F" "U" df "n" "r"],
              [("AAPL", "F", "U")],
              [persist_yahoo_df_as_entity "yahoo_finance" "AAPL" "F" "U" df "n" "r"])) ∧
      (∀ res,
        (yahoo_fetch_GetEntity storeC upstreamC "F" "U" "n" "r" "AAPL").1 = .ok res →
        res.length = 1)) ∧
      (yahoo_fetch_GetEntity storeC upstreamC "F" "U" "n" "r" "AAPL").1 = .ok [entC] :=
  ⟨C10_getentity_behavior storeC upstreamC "F" "U" "n" "r" "AAPL", rfl⟩

/-! ### Claim C4 -/
theorem removeGet_some (m : List (String × Entity)) (k : String) (e : Entity)
    (m' : List (String × Entity)) (h : removeGet m k = some (e, m'))
    (P : Entity → Prop) (hm : ∀ p ∈ m, P p.2) :
    P e ∧ ∀ p ∈ m', P p.2 := by
  unfold removeGet at h
  cases hf : m.find? (fun p => p.1 == k) with
  | none => rw [hf] at h; cases h
  | some q =>
    rw [hf] at h
    simp only [Option.some.injEq, Prod.mk.injEq] at h
    obtain ⟨he, hm'⟩ := h
    subst he
    subst hm'
    exact ⟨hm q (List.mem_of_find?_eq_some hf), fun p hp => hm p (List.mem_of_mem_filter hp)⟩

theorem pyMergeStep_foldl (missing : List String) (pre : List Entity)
    (m : List (String × Entity)) (P : Entity → Prop) (hm : ∀ p ∈ m, P p.2) :
    ∃ extra, (missing.foldl pyMergeStep (pre, m)).1 = pre ++ extra ∧ ∀ e ∈ extra, P e := by
  induction missing generalizing pre m with
  | nil => exact ⟨[], by simp, by simp⟩
  | cons i is ih =>
    simp only [List.foldl_cons]
    have hstep : pyMergeStep (pre, m) i =
        match removeGet m i with
        | some er => (pre ++ [er.1], er.2)
        | none => (pre, m) := rfl
    cases hrg : removeGet m i with
    | none =>
      rw [hstep, hrg]
      exact ih pre m hm
    | some er =>
      rw [hstep, hrg]
      obtain ⟨hPe, hPm'⟩ := removeGet_some m i er.1 er.2 (by rw [hrg]) P hm
      obtain ⟨extra, hx, hxe⟩ := ih (pre ++ [er.1]) er.2 hPm'
      refine ⟨er.1 :: extra, ?_, ?_⟩
      · rw [hx, List.append_assoc]
        rfl
      · intro e he
        rcases List.mem_cons.mp he with rfl | he'
        · exact hPe
        · exact hxe e he'

theorem byId_foldl_values (l : List Entity) (m0 : List (String × Entity))
    (P : Entity → Prop) (hm0 : ∀ p ∈ m0, P p.2) (hl : ∀ e ∈ l, P e) :
    ∀ p ∈ l.foldl
        (fun m e => match e.id with | some k => insertReplace m k e | none => m) m0,
      P p.2 := by
  induction l generalizing m0 with
  | nil => simpa using hm0
  | cons e es ih =>
    simp only [List.foldl_cons]
    have hes : ∀ x ∈ es, P x := fun x hx => hl x (List.mem_cons_of_mem _ hx)
    cases he : e.id with
    | none => exact ih m0 hm0 hes
    | some k =>
      refine ih (insertReplace m0 k e) ?_ hes
      intro p hp
      rcases List.mem_append.mp hp with hp' | hp'
      · exact hm0 p (List.mem_of_mem_filter hp')
      · simp only [List.mem_singleton] at hp'
        subst hp'
        exact hl e (List.mem_cons_self _ _)

/-- C4 counterexample: store holds only `b`; the hosted upstream returns the
entity for `a`.  The single upstream call carries the FULL id list
`["a","b"]`, not only the missing `["a"]`, and the result is the store hit
followed by the fetched entity, `[entB, entA]` — not the originally requested
order `[entA, entB]`. -/
theorem C4_counterexample :
    (py_fetch_GetEntities storeB upstreamA ["a", "b"]).2.1 = [["a", "b"]] ∧
      ["a", "b"] ≠ ["a"] ∧
      (py_fetch_GetEntities storeB upstreamA ["a", "b"]).1 = .ok [entB, entA] ∧
      ([entB, entA] : List Entity) ≠ [entA, entB] := by
  refine ⟨rfl, by decide, rfl, by decide⟩

/-- C4 (amended): ids found in the store are returned from the store, in
request order.  The python adapter issues no upstream call (and upserts
nothing) when nothing is missing; when at least one id is missing it makes
exactly one hosted call carrying the ORIGINAL full id list, upserts every
entity that call returns, and returns the store hits followed by entities
drawn from that one response (for the missing ids, in missing-id order).  The
yahoo provider never calls upstream for `GetEntities`: it returns exactly the
store hits and fails only when every requested id is absent. -/
theorem C4_getentities_behavior (store : String → Option Entity)
    (upstream : List String → Except String (List Entity)) (ids : List String)
    (fetched : List Entity) (hup : upstream ids = .ok fetched) :
    (ids.filter (fun i => (store i).isNone) = [] →
      py_fetch_GetEntities store upstream ids = (.ok (ids.filterMap store), [], [])) ∧
      (ids.filter (fun i => (store i).isNone) ≠ [] →
        (py_fetch_GetEntities store upstream ids).2.1 = [ids] ∧
          (py_fetch_GetEntities store upstream ids).2.2 = fetched ∧
          ∃ extra,
            (py_fetch_GetEntities store upstream ids).1 =
              .ok (ids.filterMap store ++ extra) ∧ ∀ e ∈ extra, e ∈ fetched) ∧
      (ids.filterMap store ≠ [] →
        yahoo_fetch_GetEntities store ids = .ok (ids.filterMap store)) ∧
      (ids.filterMap store = [] →
        yahoo_fetch_GetEntities store ids = .error "No requested entities found in DB") := by
  refine ⟨?_, ?_, ?_, ?_⟩
  · intro hmiss
    simp [py_fetch_GetEntities, hmiss]
  · intro hmiss
    have hne : (ids.filter (fun i => (store i).isNone)).isEmpty = false := by
      simpa [List.isEmpty_iff] using hmiss
    have hvals : ∀ p ∈ fetched.foldl
        (fun m e => match e.id with | some k => insertReplace m k e | none => m) [],
        (fun x => x ∈ fetched) p.2 :=
      byId_foldl_values fetched [] _ (by simp) (fun e he => he)
    obtain ⟨extra, hx, hxe⟩ :=
      pyMergeStep_foldl (ids.filter (fun i => (store i).isNone)) (ids.filterMap store)
        (fetched.foldl
          (fun m e => match e.id with | some k => insertReplace m k e | none => m) [])
        (fun x => x ∈ fetched) hvals
    refine ⟨?_, ?_, extra, ?_, hxe⟩
    · simp [py_fetch_GetEntities, hne, hup]
    · simp [py_fetch_GetEntities, hne, hup]
    · simp [py_fetch_GetEntities, hne, hup, hx]
  · intro hne
    simp [yahoo_fetch_GetEntities, List.isEmpty_iff, hne]
  · intro hnil
    simp [yahoo_fetch_GetEntities, List.isEmpty_iff, hnil]

/-- Witness for C4 (amended) at the counterexample input. -/
theorem C4_getentities_behavior_witness :
    upstreamA ["a", "b"] = .ok [entA] ∧
      ((["a", "b"].filter (fun i => (storeB i).isNone) = [] →
        py_fetch_GetEntities storeB upstreamA ["a", "b"] =
          (.ok (["a", "b"].filterMap storeB), [], [])) ∧
        (["a", "b"].filter (fun i => (storeB i).isNone) ≠ [] →
          (py_fetch_GetEntities storeB upstreamA ["a", "b"]).2.1 = [["a", "b"]] ∧
            (py_fetch_GetEntities storeB upstreamA ["a", "b"]).2.2 = [entA] ∧
            ∃ extra,
              (py_fetch_GetEntities storeB upstreamA ["a", "b"]).1 =
                .ok (["a", "b"].filterMap storeB ++ extra) ∧ ∀ e ∈ extra, e ∈ [entA]) ∧
        (["a", "b"].filterMap storeB ≠ [] →
          yahoo_fetch_GetEntities storeB ["a", "b"] =
            .ok (["a", "b"].filterMap storeB)) ∧
        (["a", "b"].filterMap storeB = [] →
          yahoo_fetch_GetEntities storeB ["a", "b"] =
            .error "No requested entities found in DB")) :=
  ⟨rfl, C4_getentities_behavior storeB upstreamA ["a", "b"] [entA] rfl⟩

end Provider
